import Mathlib

/-!
Shallow embedding of the `gym-bullet-chess` environment, translated from
`gym_bullet_chess/envs/bullet_chess_env.py` and
`gym_bullet_chess/utils/encoding.py`.

The chess rules engine (the `python-chess` library) is an external
collaborator of the core (spec §1, §6); it is modelled abstractly as an
`Engine` structure whose fields are the operations the core consumes.
The episode random generator (numpy, seeded through `gymnasium`) is an
external library as well; it is modelled as a concrete deterministic
stream advanced once per draw, which is all the core's behaviour depends
on.  Python floats are modelled as rationals, with a separate `PyFloat`
type for the unsanitized elapsed-time input, which can be NaN or
infinite before the clamp in `step`.
-/

namespace BulletChess

/-- Piece colours, mirroring `chess.WHITE` / `chess.BLACK`. -/
inductive Color
  | white
  | black
deriving DecidableEq

/-- The opposite colour. -/
def Color.other : Color → Color
  | .white => .black
  | .black => .white

/-- Piece kinds, mirroring `chess.PAWN` .. `chess.KING`. -/
inductive PieceKind
  | pawn
  | knight
  | bishop
  | rook
  | queen
  | king
deriving DecidableEq

/-- Tensor-layer ordinal of a piece kind: `piece.piece_type - 1` in
`get_board_tensor`. -/
def PieceKind.ordinal : PieceKind → Nat
  | .pawn => 0
  | .knight => 1
  | .bishop => 2
  | .rook => 3
  | .queen => 4
  | .king => 5

/-- A coloured piece, mirroring `chess.Piece`. -/
structure Piece where
  color : Color
  kind : PieceKind
deriving DecidableEq

/-- A move, mirroring `chess.Move(from_square, to_square, promotion=...)`.
The from-square is an `Int` because `int_to_move` builds moves from raw,
unvalidated action indices, which can be negative. -/
structure Move where
  fromSq : Int
  toSq : Int
  promotion : Option PieceKind
deriving DecidableEq

variable {B : Type}

/-- Abstract interface of the chess rules engine (`python-chess`), an
external collaborator per spec §1/§6.  `pieceAt` takes the resolved
square-table index in `[0,63]` (see `pySquareIndex` for Python list
indexing semantics of `board.piece_at`).

Legality appears twice because the source consumes it through two
different operations: `legalMoves` models the enumeration
`list(board.legal_moves)` (every generated move has squares in
`[0,63]`), while `isLegal` models the membership test
`move in board.legal_moves`, which python-chess implements as
`LegalMoveGenerator.__contains__ = Board.is_legal`.  `is_legal` indexes
its bitboard tables with the raw square numbers, so for a move with a
negative from-square it wraps via Python negative indexing and is not
equivalent to structural membership in the enumeration (such a move can
be accepted, e.g. `Move(-63, 18)` is accepted as Nb1-c3 on the initial
board); for moves with squares in `[0,63]` the two coincide. -/
structure Engine (B : Type) where
  initial : B
  turn : B → Color
  pieceAt : B → Nat → Option Piece
  legalMoves : B → List Move
  isLegal : B → Move → Bool
  push : B → Move → B
  isGameOver : B → Bool
  result : B → String
  hasKingsideCastlingRights : B → Color → Bool
  hasQueensideCastlingRights : B → Color → Bool
  epSquare : B → Option Int

/-- A Python float as received for the elapsed-time component of an
action, before sanitization: either a finite rational or one of the
non-finite IEEE values. -/
inductive PyFloat
  | finite (q : Rat)
  | nan
  | inf
  | ninf
deriving DecidableEq

/-- Models `np.isfinite`. -/
def PyFloat.isfinite : PyFloat → Bool
  | .finite _ => true
  | _ => false

/-- Models the Python comparison `x < 0.0` (false for NaN and +inf,
true for -inf). -/
def PyFloat.isNeg : PyFloat → Bool
  | .finite q => decide (q < 0)
  | .ninf => true
  | _ => false

/-- The elapsed-time sanitization in `step`:
`if not np.isfinite(elapsed_time) or elapsed_time < 0: elapsed_time = 0.0`. -/
def sanitizeElapsed : PyFloat → Rat
  | .finite q => if q < 0 then 0 else q
  | _ => 0

/-- The two action forms `step` accepts: a bare move index (elapsed
taken as 0.0), or a pair `(move_index, elapsed_time)` as supplied by the
`RealTimeClock` wrapper. -/
inductive PyAction
  | int (i : Int)
  | pair (i : Int) (t : PyFloat)
deriving DecidableEq

/-- The move index extracted from an action (`move_idx` in `step`). -/
def PyAction.moveIdx : PyAction → Int
  | .int i => i
  | .pair i _ => i

/-- The raw elapsed-time component of an action, before sanitization
(`elapsed_time` starts at `0.0` for a bare index). -/
def PyAction.elapsedRaw : PyAction → PyFloat
  | .int _ => .finite 0
  | .pair _ t => t

/-- Models the external numpy pseudo-random generator state: the core
only relies on the generator being a deterministic stream advanced once
per draw, so a simple linear-congruential state suffices. -/
def rngNext (g : Nat) : Nat :=
  (1103515245 * g + 12345) % 2 ^ 31

/-- Models seeding the generator, as done by `super().reset(seed=seed)`
when a seed is supplied. -/
def seedRng (seed : Nat) : Nat :=
  rngNext seed

/-- Models `np_random.choice` over a list of length `n`: the index drawn
from generator state `g` (always `< n` for `n > 0`). -/
def rngChoiceIdx (g : Nat) (n : Nat) : Nat :=
  rngNext g % n

/-- Models a draw in `[0,1)` from generator state `g`. -/
def rngUnit (g : Nat) : Rat :=
  (rngNext g % 1024 : Nat) / 1024

/-- Models `np_random.uniform(lo, hi)` from generator state `g`. -/
def rngUniform (g : Nat) (lo hi : Rat) : Rat :=
  lo + (hi - lo) * rngUnit g

/-- Python floor division `//` on integers. -/
def pyFloorDiv (a b : Int) : Int :=
  Int.fdiv a b

/-- Python remainder `%` on integers (non-negative for a positive
modulus). -/
def pyMod (a b : Int) : Int :=
  Int.emod a b

/-- Translation of `decode_action_to_squares` in `encoding.py`:
`from_sq = action_idx // 64`, `to_sq = action_idx % 64`. -/
def decode_action_to_squares (actionIdx : Int) : Int × Int :=
  (pyFloorDiv actionIdx 64, pyMod actionIdx 64)

/-- Python list indexing into the 64-entry square table used by
`board.piece_at`: indices in `[0,63]` read directly, indices in
`[-64,-1]` wrap (Python negative indexing), anything else raises
`IndexError` (`none`). -/
def pySquareIndex (sq : Int) : Option Nat :=
  if 0 ≤ sq ∧ sq < 64 then some sq.toNat
  else if -64 ≤ sq ∧ sq < 0 then some (sq + 64).toNat
  else none

/-- Models `chess.square_rank`: `square // 8`. -/
def squareRank (sq : Int) : Int :=
  pyFloorDiv sq 8

/-- Translation of `int_to_move` in `encoding.py`: decode the index into
squares, look up the piece on the from-square (Python list indexing; an
out-of-range index raises, modelled as `Except.error`), and auto-queen
when a pawn reaches its terminal rank. -/
def int_to_move (e : Engine B) (b : B) (actionIdx : Int) : Except Unit Move :=
  let p := decode_action_to_squares actionIdx
  match pySquareIndex p.1 with
  | none => .error ()
  | some idx =>
      let piece := e.pieceAt b idx
      let promotion : Option PieceKind :=
        match piece with
        | some pc =>
            if pc.kind = PieceKind.pawn ∧
                ((pc.color = Color.white ∧ squareRank p.2 = 7) ∨
                 (pc.color = Color.black ∧ squareRank p.2 = 0)) then
              some PieceKind.queen
            else none
        | none => none
      .ok ⟨p.1, p.2, promotion⟩

/-- Tensor layer of a piece in `get_board_tensor`:
`(0 if white else 6) + (piece_type - 1)`. -/
def layerOf (p : Piece) : Nat :=
  (if p.color = Color.white then 0 else 6) + p.kind.ordinal

/-- One entry of the board tensor at `[rank][file][layer]`: in the
source the loop over occupied squares writes `1.0` at exactly the layer
of the piece standing on square `8*rank + file`. -/
def tensorEntry (e : Engine B) (b : B) (rank file layer : Nat) : Rat :=
  match e.pieceAt b (8 * rank + file) with
  | some p => if layerOf p = layer then 1 else 0
  | none => 0

/-- Translation of `get_board_tensor`: the `(8,8,12)` tensor flattened
row-major as `[rank][file][layer]`. -/
def get_board_tensor (e : Engine B) (b : B) : List Rat :=
  ((List.range 8).map fun rank =>
    ((List.range 8).map fun file =>
      (List.range 12).map fun layer => tensorEntry e b rank file layer).flatten).flatten

/-- Translation of `get_state_vector` in `encoding.py`. -/
def get_state_vector (e : Engine B) (b : B) (white_time black_time max_time : Rat) :
    List Rat :=
  [ if e.turn b = Color.white then 1 else 0,
    if e.hasKingsideCastlingRights b Color.white then 1 else 0,
    if e.hasQueensideCastlingRights b Color.white then 1 else 0,
    if e.hasKingsideCastlingRights b Color.black then 1 else 0,
    if e.hasQueensideCastlingRights b Color.black then 1 else 0,
    if (e.epSquare b).isSome then 1 else 0,
    max 0 (white_time / max_time),
    max 0 (black_time / max_time) ]

/-- The observation dictionary returned by `_get_obs`. -/
structure Obs where
  board : List Rat
  state : List Rat
deriving DecidableEq

/-- The `info` dictionary of a step outcome: empty, or exactly one of
the keys `reason`, `error`, `result`. -/
inductive Info
  | empty
  | reason (s : String)
  | error (s : String)
  | result (s : String)
deriving DecidableEq

/-- The 5-tuple returned by `step`. -/
structure StepOutcome where
  obs : Obs
  reward : Rat
  terminated : Bool
  truncated : Bool
  info : Info
deriving DecidableEq

/-- The mutable state of `BulletChessEnv`: the board handle, the two
clocks, the fixed initial allotment, the self-play flag and the
generator state. -/
structure EnvState (B : Type) where
  board : B
  white_time : Rat
  black_time : Rat
  initial_time : Rat
  self_play : Bool
  rng : Nat
deriving DecidableEq

/-- Translation of `_get_obs`. -/
def getObs (e : Engine B) (s : EnvState B) : Obs :=
  ⟨get_board_tensor e s.board,
   get_state_vector e s.board s.white_time s.black_time s.initial_time⟩

/-- The state established by `__init__`: initial board, both clocks at
the 60-second bullet allotment. -/
def initEnv (e : Engine B) (selfPlay : Bool) (g : Nat) : EnvState B :=
  ⟨e.initial, 60, 60, 60, selfPlay, g⟩

/-- Translation of `reset`: reseed the generator when a seed is given,
reset the board to the initial position, refill both clocks from the
(unchanged) initial allotment, and apply a `self_play` override from
`options` when present. -/
def reset (e : Engine B) (s : EnvState B) (seed : Option Nat)
    (optionsSelfPlay : Option Bool) : Obs × EnvState B :=
  let g := match seed with
    | some sd => seedRng sd
    | none => s.rng
  let s2 : EnvState B :=
    ⟨e.initial, s.initial_time, s.initial_time, s.initial_time,
     optionsSelfPlay.getD s.self_play, g⟩
  (getObs e s2, s2)

/-- Translation of `_handle_game_over`: base reward from the result
string in White's perspective, sign-flipped in self-play when the side
now to move is White (meaning Black just moved). -/
def handle_game_over (e : Engine B) (s : EnvState B) : StepOutcome × EnvState B :=
  let result := e.result s.board
  let reward0 : Rat := if result = "1-0" then 1 else if result = "0-1" then -1 else 0
  let reward : Rat :=
    if s.self_play ∧ e.turn s.board = Color.white then -reward0 else reward0
  (⟨getObs e s, reward, true, false, Info.result result⟩, s)

/-- The non-terminal outcome `(obs, 0.0, False, False, {})`. -/
def continueOutcome (e : Engine B) (s : EnvState B) : StepOutcome :=
  ⟨getObs e s, 0, false, false, Info.empty⟩

/-- The clock charge at the top of `step`: the side to move pays the
(already sanitized) elapsed time. -/
def afterCharge (e : Engine B) (s : EnvState B) (elapsed : Rat) : EnvState B :=
  if e.turn s.board = Color.white then
    { s with white_time := s.white_time - elapsed }
  else
    { s with black_time := s.black_time - elapsed }

/-- Translation of the body of `step` after action parsing: charge the
clock, check timeout, decode the move, gate it through the engine's
membership test `move not in board.legal_moves` (that is,
`Board.is_legal`, modelled by `Engine.isLegal`), apply it, and in
non-self-play mode play the random Black reply with its simulated think
time.  An `IndexError` escaping `int_to_move` is `Except.error`. -/
def stepCore (e : Engine B) (s : EnvState B) (moveIdx : Int) (elapsed : Rat) :
    Except Unit (StepOutcome × EnvState B) :=
  let isWhiteTurn := e.turn s.board = Color.white
  let s1 := afterCharge e s elapsed
  if isWhiteTurn ∧ s1.white_time ≤ 0 then
    .ok (⟨getObs e s1, -1, true, false, Info.reason "timeout"⟩, s1)
  else if ¬ isWhiteTurn ∧ s1.black_time ≤ 0 then
    .ok (⟨getObs e s1, if s1.self_play then -1 else 1, true, false,
          Info.reason "timeout"⟩, s1)
  else
    match int_to_move e s1.board moveIdx with
    | .error u => .error u
    | .ok move =>
        if e.isLegal s1.board move = false then
          .ok (⟨getObs e s1, -10, true, false, Info.error "illegal_move"⟩, s1)
        else
          let s2 := { s1 with board := e.push s1.board move }
          if e.isGameOver s2.board then .ok (handle_game_over e s2)
          else if s2.self_play then .ok (continueOutcome e s2, s2)
          else if isWhiteTurn then
            let lm := e.legalMoves s2.board
            if lm.isEmpty then .ok (handle_game_over e s2)
            else
              let k := rngChoiceIdx s2.rng lm.length
              let oppMove := lm.getD k ⟨0, 0, none⟩
              let g1 := rngNext s2.rng
              let s3 := { s2 with board := e.push s2.board oppMove, rng := g1 }
              let oppCost := rngUniform g1 (1 / 10) (1 / 2)
              let g2 := rngNext g1
              let s4 := { s3 with black_time := s3.black_time - oppCost, rng := g2 }
              if s4.black_time ≤ 0 then
                .ok (⟨getObs e s4, 1, true, false, Info.reason "opponent_timeout"⟩, s4)
              else if e.isGameOver s4.board then .ok (handle_game_over e s4)
              else .ok (continueOutcome e s4, s4)
          else .ok (continueOutcome e s2, s2)

/-- Translation of `step`: parse the action into a move index and a
sanitized elapsed time, then run the step body. -/
def step (e : Engine B) (s : EnvState B) (a : PyAction) :
    Except Unit (StepOutcome × EnvState B) :=
  stepCore e s a.moveIdx (sanitizeElapsed a.elapsedRaw)

/-- Trace of one episode from a given state under a fixed action
sequence: the list of step outcomes; an escaped exception ends the run. -/
def runEpisode (e : Engine B) : EnvState B → List PyAction → List (Except Unit StepOutcome)
  | _, [] => []
  | s, a :: rest =>
      match step e s a with
      | .error u => [.error u]
      | .ok (out, s2) => .ok out :: runEpisode e s2 rest

/-- Spec-side base reward of §4.4 step 7: White perspective, `+1.0` for
a White win, `-1.0` for a Black win, `0.0` for a draw (the engine's
result strings are `"1-0"`, `"0-1"`, `"1/2-1/2"`). -/
def specBaseReward (result : String) : Rat :=
  if result = "1-0" then 1 else if result = "0-1" then -1 else 0

/-- Spec-side game-over reward of §4.4 step 7: the base reward, with its
sign flipped exactly when self-play is on and the side now to move is
White (Black made the terminating move); unflipped in non-self-play. -/
def specGameOverReward (selfPlay : Bool) (result : String) (turnAfter : Color) : Rat :=
  if selfPlay then
    (if turnAfter = Color.white then -(specBaseReward result) else specBaseReward result)
  else specBaseReward result

/-- Spec-side state vector of §4.2, written from the spec's words for
comparison with `get_state_vector`: entries 6 and 7 are
`max(0, remaining) / initial_allotment`. -/
def specStateVector (e : Engine B) (b : B) (white_time black_time allot : Rat) :
    List Rat :=
  [ if e.turn b = Color.white then 1 else 0,
    if e.hasKingsideCastlingRights b Color.white then 1 else 0,
    if e.hasQueensideCastlingRights b Color.white then 1 else 0,
    if e.hasKingsideCastlingRights b Color.black then 1 else 0,
    if e.hasQueensideCastlingRights b Color.black then 1 else 0,
    if (e.epSquare b).isSome then 1 else 0,
    max 0 white_time / allot,
    max 0 black_time / allot ]

/-- The episode states reachable through the public API: the state built
by `__init__`, and anything produced from a reachable state by `reset`
or by a non-raising `step`. -/
inductive Reachable (e : Engine B) : EnvState B → Prop
  | init : ∀ sp g, Reachable e (initEnv e sp g)
  | ofReset : ∀ s seed opts, Reachable e s → Reachable e (reset e s seed opts).2
  | ofStep : ∀ s a out s2, Reachable e s →
      step e s a = Except.ok (out, s2) → Reachable e s2

/-- The chess-engine law that pushing a move hands the turn to the other
colour; `python-chess` guarantees this for `Board.push`. -/
def TurnAlternates (e : Engine B) : Prop :=
  ∀ b m, e.turn (e.push b m) = (e.turn b).other

/-- A concrete engine instance used to evaluate the embedding on closed
inputs: boards are ply counters, White moves on even plies, the single
legal move is `(0,0)`, pushing increments the counter, and the game
never ends. -/
def toyEngine : Engine Nat where
  initial := 0
  turn := fun b => if b % 2 = 0 then Color.white else Color.black
  pieceAt := fun _ _ => none
  legalMoves := fun _ => [⟨0, 0, none⟩]
  isLegal := fun _ m => decide (m = (⟨0, 0, none⟩ : Move))
  push := fun b _ => b + 1
  isGameOver := fun _ => false
  result := fun _ => "*"
  hasKingsideCastlingRights := fun _ _ => true
  hasQueensideCastlingRights := fun _ _ => true
  epSquare := fun _ => none

/-- A concrete engine whose every position is already game over with no
legal moves, modelling a finished game. -/
def doneEngine : Engine Nat where
  initial := 0
  turn := fun _ => Color.white
  pieceAt := fun _ _ => none
  legalMoves := fun _ => []
  isLegal := fun _ _ => false
  push := fun b _ => b + 1
  isGameOver := fun _ => true
  result := fun _ => "1-0"
  hasKingsideCastlingRights := fun _ _ => false
  hasQueensideCastlingRights := fun _ _ => false
  epSquare := fun _ => none

/-- A concrete engine where Black (to move at ply 0) has one legal move
whose application ends the game as a Black win. -/
def mateEngine : Engine Nat where
  initial := 0
  turn := fun b => if b = 0 then Color.black else Color.white
  pieceAt := fun _ _ => none
  legalMoves := fun _ => [⟨0, 0, none⟩]
  isLegal := fun _ m => decide (m = (⟨0, 0, none⟩ : Move))
  push := fun b _ => b + 1
  isGameOver := fun b => b != 0
  result := fun _ => "0-1"
  hasKingsideCastlingRights := fun _ _ => false
  hasQueensideCastlingRights := fun _ _ => false
  epSquare := fun _ => none

/-- A concrete engine exhibiting python-chess's index-wrapping
membership test: the single enumerated legal move is `(1, 18)` (the
Nb1-c3 analogue), and `isLegal` accepts a move whose from-square wraps
to it modulo 64, exactly as `Board.is_legal` accepts `Move(-63, 18)`
on the initial board. -/
def wrapEngine : Engine Nat where
  initial := 0
  turn := fun _ => Color.white
  pieceAt := fun _ _ => none
  legalMoves := fun _ => [⟨1, 18, none⟩]
  isLegal := fun _ m =>
    decide ((⟨Int.emod m.fromSq 64, m.toSq, m.promotion⟩ : Move) = (⟨1, 18, none⟩ : Move))
  push := fun b _ => b + 1
  isGameOver := fun _ => false
  result := fun _ => "*"
  hasKingsideCastlingRights := fun _ _ => true
  hasQueensideCastlingRights := fun _ _ => true
  epSquare := fun _ => none

/-- Fresh self-play state on the wrapping engine. -/
def wrapS0 : EnvState Nat := ⟨0, 60, 60, 60, true, 0⟩

/-- Fresh non-self-play state on the toy engine. -/
def toyS0 : EnvState Nat := ⟨0, 60, 60, 60, false, 0⟩

/-- Non-self-play toy state with Black to move (ply 1). -/
def toySBlack : EnvState Nat := ⟨1, 60, 60, 60, false, 0⟩

/-- The state after Black's own move from `toySBlack`. -/
def toySBlackNext : EnvState Nat := ⟨2, 60, 60, 60, false, 0⟩

/-- Non-self-play toy state whose White clock is already empty. -/
def toyTimeoutS : EnvState Nat := ⟨0, 0, 60, 60, false, 0⟩

/-- Fresh self-play state on the mate engine. -/
def mateS0 : EnvState Nat := ⟨0, 60, 60, 60, true, 0⟩

/-- Fresh state on the finished-game engine. -/
def doneS0 : EnvState Nat := ⟨0, 60, 60, 60, false, 0⟩

/-- `doneS0` after a step that charged White one second. -/
def doneS1 : EnvState Nat := ⟨0, 59, 60, 60, false, 0⟩

/-- The illegal-move outcome produced on `doneEngine` from `doneS1`. -/
def doneOut1 : StepOutcome :=
  ⟨getObs doneEngine doneS1, -10, true, false, Info.error "illegal_move"⟩

/-- The continue outcome produced on `toyEngine` after Black's own move
from `toySBlack`. -/
def toyOutBlack : StepOutcome :=
  ⟨getObs toyEngine toySBlackNext, 0, false, false, Info.empty⟩

/-- The environment state reached in the non-self-play opponent phase of
`stepCore`, after White's move `mv` was pushed, the random Black reply
was pushed, and Black's clock was charged with the simulated think time:
`t` is the sanitized elapsed time charged to the acting side at entry. -/
def oppState (e : Engine B) (s : EnvState B) (t : Rat) (mv : Move) : EnvState B :=
  { board := e.push (e.push s.board mv)
      ((e.legalMoves (e.push s.board mv)).getD
        (rngChoiceIdx s.rng (e.legalMoves (e.push s.board mv)).length) ⟨0, 0, none⟩),
    white_time := (afterCharge e s t).white_time,
    black_time := (afterCharge e s t).black_time - rngUniform (rngNext s.rng) (1 / 10) (1 / 2),
    initial_time := (afterCharge e s t).initial_time,
    self_play := (afterCharge e s t).self_play,
    rng := rngNext (rngNext s.rng) }

theorem afterCharge_board (e : Engine B) (s : EnvState B) (t : Rat) :
    (afterCharge e s t).board = s.board := by
  unfold afterCharge
  split <;> rfl

theorem afterCharge_self_play (e : Engine B) (s : EnvState B) (t : Rat) :
    (afterCharge e s t).self_play = s.self_play := by
  unfold afterCharge
  split <;> rfl

theorem afterCharge_rng (e : Engine B) (s : EnvState B) (t : Rat) :
    (afterCharge e s t).rng = s.rng := by
  unfold afterCharge
  split <;> rfl

theorem afterCharge_initial_time (e : Engine B) (s : EnvState B) (t : Rat) :
    (afterCharge e s t).initial_time = s.initial_time := by
  unfold afterCharge
  split <;> rfl

theorem afterCharge_zero (e : Engine B) (s : EnvState B) :
    afterCharge e s 0 = s := by
  cases s
  unfold afterCharge
  split <;> simp

theorem afterCharge_white_of_turn (e : Engine B) (s : EnvState B) (t : Rat)
    (h : e.turn s.board = Color.white) :
    (afterCharge e s t).white_time = s.white_time - t ∧
    (afterCharge e s t).black_time = s.black_time := by
  unfold afterCharge
  rw [if_pos h]
  exact ⟨rfl, rfl⟩

theorem sanitizeElapsed_nonneg (t : PyFloat) : 0 ≤ sanitizeElapsed t := by
  cases t with
  | finite q =>
      by_cases h : q < 0
      · simp [sanitizeElapsed, h]
      · simp [sanitizeElapsed, h, le_of_not_lt h]
  | nan => simp [sanitizeElapsed]
  | inf => simp [sanitizeElapsed]
  | ninf => simp [sanitizeElapsed]

theorem afterCharge_le (e : Engine B) (s : EnvState B) (t : Rat) (h : 0 ≤ t) :
    (afterCharge e s t).white_time ≤ s.white_time ∧
    (afterCharge e s t).black_time ≤ s.black_time := by
  unfold afterCharge
  split
  · exact ⟨sub_le_self _ h, le_refl _⟩
  · exact ⟨le_refl _, sub_le_self _ h⟩

theorem rngUnit_nonneg (g : Nat) : 0 ≤ rngUnit g := by
  unfold rngUnit
  positivity

theorem rngUnit_le_one (g : Nat) : rngUnit g ≤ 1 := by
  unfold rngUnit
  rw [div_le_one (by norm_num)]
  have h : rngNext g % 1024 < 1024 := Nat.mod_lt _ (by norm_num)
  exact_mod_cast h.le

theorem oppCost_bounds (g : Nat) :
    1 / 10 ≤ rngUniform g (1 / 10) (1 / 2) ∧ rngUniform g (1 / 10) (1 / 2) ≤ 1 / 2 := by
  unfold rngUniform
  constructor
  · nlinarith [rngUnit_nonneg g]
  · nlinarith [rngUnit_le_one g]

theorem handle_game_over_reward (e : Engine B) (s : EnvState B) :
    (handle_game_over e s).1.reward
      = specGameOverReward s.self_play (e.result s.board) (e.turn s.board) := by
  unfold handle_game_over specGameOverReward specBaseReward
  by_cases hsp : s.self_play = true <;>
    by_cases ht : e.turn s.board = Color.white <;>
      simp [hsp, ht]

theorem handle_game_over_shape (e : Engine B) (s : EnvState B) :
    (handle_game_over e s).1.terminated = true ∧
    (handle_game_over e s).1.truncated = false ∧
    (handle_game_over e s).1.info = Info.result (e.result s.board) ∧
    (handle_game_over e s).2 = s :=
  ⟨rfl, rfl, rfl, rfl⟩

theorem stepCore_timeout_white (e : Engine B) (s : EnvState B) (i : Int) (t : Rat)
    (h : e.turn s.board = Color.white ∧ (afterCharge e s t).white_time ≤ 0) :
    stepCore e s i t = Except.ok
      (⟨getObs e (afterCharge e s t), -1, true, false, Info.reason "timeout"⟩,
       afterCharge e s t) := by
  unfold stepCore
  rw [if_pos h]

theorem stepCore_timeout_black (e : Engine B) (s : EnvState B) (i : Int) (t : Rat)
    (hW : ¬ (e.turn s.board = Color.white ∧ (afterCharge e s t).white_time ≤ 0))
    (h : ¬ e.turn s.board = Color.white ∧ (afterCharge e s t).black_time ≤ 0) :
    stepCore e s i t = Except.ok
      (⟨getObs e (afterCharge e s t), if s.self_play then -1 else 1, true, false,
        Info.reason "timeout"⟩, afterCharge e s t) := by
  unfold stepCore
  rw [if_neg hW, if_pos h, afterCharge_self_play]

theorem stepCore_illegal (e : Engine B) (s : EnvState B) (i : Int) (t : Rat) (mv : Move)
    (hW : ¬ (e.turn s.board = Color.white ∧ (afterCharge e s t).white_time ≤ 0))
    (hB : ¬ (¬ e.turn s.board = Color.white ∧ (afterCharge e s t).black_time ≤ 0))
    (hdec : int_to_move e s.board i = Except.ok mv)
    (hnl : e.isLegal s.board mv = false) :
    stepCore e s i t = Except.ok
      (⟨getObs e (afterCharge e s t), -10, true, false, Info.error "illegal_move"⟩,
       afterCharge e s t) := by
  unfold stepCore
  simp only [afterCharge_board]
  rw [if_neg hW, if_neg hB, hdec]
  simp only []
  rw [if_pos hnl]

theorem stepCore_game_over (e : Engine B) (s : EnvState B) (i : Int) (t : Rat) (mv : Move)
    (hW : ¬ (e.turn s.board = Color.white ∧ (afterCharge e s t).white_time ≤ 0))
    (hB : ¬ (¬ e.turn s.board = Color.white ∧ (afterCharge e s t).black_time ≤ 0))
    (hdec : int_to_move e s.board i = Except.ok mv)
    (hleg : e.isLegal s.board mv = true)
    (hgo : e.isGameOver (e.push s.board mv) = true) :
    stepCore e s i t = Except.ok
      (handle_game_over e { afterCharge e s t with board := e.push s.board mv }) := by
  unfold stepCore
  simp only [afterCharge_board]
  rw [if_neg hW, if_neg hB, hdec]
  simp only []
  rw [if_neg (by simp [hleg])]
  split
  · rfl
  · next h => exact absurd hgo h

theorem stepCore_selfplay_continue (e : Engine B) (s : EnvState B) (i : Int) (t : Rat) (mv : Move)
    (hW : ¬ (e.turn s.board = Color.white ∧ (afterCharge e s t).white_time ≤ 0))
    (hB : ¬ (¬ e.turn s.board = Color.white ∧ (afterCharge e s t).black_time ≤ 0))
    (hdec : int_to_move e s.board i = Except.ok mv)
    (hleg : e.isLegal s.board mv = true)
    (hngo : e.isGameOver (e.push s.board mv) = false)
    (hsp : s.self_play = true) :
    stepCore e s i t = Except.ok
      (continueOutcome e { afterCharge e s t with board := e.push s.board mv },
       { afterCharge e s t with board := e.push s.board mv }) := by
  unfold stepCore
  simp only [afterCharge_board]
  rw [if_neg hW, if_neg hB, hdec]
  simp only []
  rw [if_neg (by simp [hleg])]
  split
  · next h => exact absurd h (by simp [hngo])
  · split
    · rfl
    · next h => exact absurd (by simp [afterCharge_self_play, hsp]) h

theorem stepCore_black_continue (e : Engine B) (s : EnvState B) (i : Int) (t : Rat) (mv : Move)
    (hW : ¬ (e.turn s.board = Color.white ∧ (afterCharge e s t).white_time ≤ 0))
    (hB : ¬ (¬ e.turn s.board = Color.white ∧ (afterCharge e s t).black_time ≤ 0))
    (hdec : int_to_move e s.board i = Except.ok mv)
    (hleg : e.isLegal s.board mv = true)
    (hngo : e.isGameOver (e.push s.board mv) = false)
    (hsp : s.self_play = false)
    (hts : ¬ e.turn s.board = Color.white) :
    stepCore e s i t = Except.ok
      (continueOutcome e { afterCharge e s t with board := e.push s.board mv },
       { afterCharge e s t with board := e.push s.board mv }) := by
  unfold stepCore
  simp only [afterCharge_board]
  rw [if_neg hW, if_neg hB, hdec]
  simp only []
  rw [if_neg (by simp [hleg])]
  split
  · next h => exact absurd h (by simp [hngo])
  · split
    · next h => exact absurd h (by simp [afterCharge_self_play, hsp])
    · rfl

theorem stepCore_opp_timeout (e : Engine B) (s : EnvState B) (i : Int) (t : Rat) (mv : Move)
    (hW : ¬ (e.turn s.board = Color.white ∧ (afterCharge e s t).white_time ≤ 0))
    (hB : ¬ (¬ e.turn s.board = Color.white ∧ (afterCharge e s t).black_time ≤ 0))
    (hdec : int_to_move e s.board i = Except.ok mv)
    (hleg : e.isLegal s.board mv = true)
    (hngo : e.isGameOver (e.push s.board mv) = false)
    (hsp : s.self_play = false)
    (hts : e.turn s.board = Color.white)
    (hlm : (e.legalMoves (e.push s.board mv)).isEmpty = false)
    (hbt : (oppState e s t mv).black_time ≤ 0) :
    stepCore e s i t = Except.ok
      (⟨getObs e (oppState e s t mv), 1, true, false, Info.reason "opponent_timeout"⟩,
       oppState e s t mv) := by
  unfold stepCore
  simp only [afterCharge_board, afterCharge_rng]
  rw [if_neg hW, if_neg hB, hdec]
  simp only []
  rw [if_neg (by simp [hleg])]
  split
  · next h => exact absurd h (by simp [hngo])
  · split
    · next h => exact absurd h (by simp [afterCharge_self_play, hsp])
    · split
      · next h => exact absurd h (by simp [hlm])
      · split
        · rfl
        · next h => exact absurd hbt h

theorem stepCore_opp_game_over (e : Engine B) (s : EnvState B) (i : Int) (t : Rat) (mv : Move)
    (hW : ¬ (e.turn s.board = Color.white ∧ (afterCharge e s t).white_time ≤ 0))
    (hB : ¬ (¬ e.turn s.board = Color.white ∧ (afterCharge e s t).black_time ≤ 0))
    (hdec : int_to_move e s.board i = Except.ok mv)
    (hleg : e.isLegal s.board mv = true)
    (hngo : e.isGameOver (e.push s.board mv) = false)
    (hsp : s.self_play = false)
    (hts : e.turn s.board = Color.white)
    (hlm : (e.legalMoves (e.push s.board mv)).isEmpty = false)
    (hbt : ¬ (oppState e s t mv).black_time ≤ 0)
    (hgo2 : e.isGameOver (oppState e s t mv).board = true) :
    stepCore e s i t = Except.ok (handle_game_over e (oppState e s t mv)) := by
  unfold stepCore
  simp only [afterCharge_board, afterCharge_rng]
  rw [if_neg hW, if_neg hB, hdec]
  simp only []
  rw [if_neg (by simp [hleg])]
  split
  · next h => exact absurd h (by simp [hngo])
  · split
    · next h => exact absurd h (by simp [afterCharge_self_play, hsp])
    · split
      · next h => exact absurd h (by simp [hlm])
      · split
        · next h => exact absurd h hbt
        · split
          · rfl
          · next h => exact absurd hgo2 h

theorem stepCore_opp_continue (e : Engine B) (s : EnvState B) (i : Int) (t : Rat) (mv : Move)
    (hW : ¬ (e.turn s.board = Color.white ∧ (afterCharge e s t).white_time ≤ 0))
    (hB : ¬ (¬ e.turn s.board = Color.white ∧ (afterCharge e s t).black_time ≤ 0))
    (hdec : int_to_move e s.board i = Except.ok mv)
    (hleg : e.isLegal s.board mv = true)
    (hngo : e.isGameOver (e.push s.board mv) = false)
    (hsp : s.self_play = false)
    (hts : e.turn s.board = Color.white)
    (hlm : (e.legalMoves (e.push s.board mv)).isEmpty = false)
    (hbt : ¬ (oppState e s t mv).black_time ≤ 0)
    (hgo2 : e.isGameOver (oppState e s t mv).board = false) :
    stepCore e s i t = Except.ok
      (continueOutcome e (oppState e s t mv), oppState e s t mv) := by
  unfold stepCore
  simp only [afterCharge_board, afterCharge_rng]
  rw [if_neg hW, if_neg hB, hdec]
  simp only []
  rw [if_neg (by simp [hleg])]
  split
  · next h => exact absurd h (by simp [hngo])
  · split
    · next h => exact absurd h (by simp [afterCharge_self_play, hsp])
    · split
      · next h => exact absurd h (by simp [hlm])
      · split
        · next h => exact absurd h hbt
        · split
          · next h => exact Bool.noConfusion (hgo2.symm.trans h)
          · rfl

theorem stepCore_opp_nomoves (e : Engine B) (s : EnvState B) (i : Int) (t : Rat) (mv : Move)
    (hW : ¬ (e.turn s.board = Color.white ∧ (afterCharge e s t).white_time ≤ 0))
    (hB : ¬ (¬ e.turn s.board = Color.white ∧ (afterCharge e s t).black_time ≤ 0))
    (hdec : int_to_move e s.board i = Except.ok mv)
    (hleg : e.isLegal s.board mv = true)
    (hngo : e.isGameOver (e.push s.board mv) = false)
    (hsp : s.self_play = false)
    (hts : e.turn s.board = Color.white)
    (hlm : (e.legalMoves (e.push s.board mv)).isEmpty = true) :
    stepCore e s i t = Except.ok
      (handle_game_over e { afterCharge e s t with board := e.push s.board mv }) := by
  unfold stepCore
  simp only [afterCharge_board]
  rw [if_neg hW, if_neg hB, hdec]
  simp only []
  rw [if_neg (by simp [hleg])]
  split
  · next h => exact absurd h (by simp [hngo])
  · split
    · next h => exact absurd h (by simp [afterCharge_self_play, hsp])
    · rfl

theorem int_to_move_ok_inrange (e : Engine B) (b : B) (i : Int)
    (h1 : 0 ≤ i) (h2 : i < 4096) :
    ∃ mv, int_to_move e b i = Except.ok mv := by
  have hf : 0 ≤ Int.fdiv i 64 ∧ Int.fdiv i 64 < 64 := by
    rw [Int.fdiv_eq_ediv _ (by norm_num)]
    omega
  unfold int_to_move decode_action_to_squares pyFloorDiv pySquareIndex
  simp only []
  rw [if_pos hf]
  exact ⟨_, rfl⟩

theorem int_to_move_ok_neg (e : Engine B) (b : B) (i : Int)
    (h1 : -4096 ≤ i) (h2 : i < 0) :
    ∃ mv, int_to_move e b i = Except.ok mv ∧ mv.fromSq < 0 := by
  have hf : -64 ≤ Int.fdiv i 64 ∧ Int.fdiv i 64 < 0 := by
    rw [Int.fdiv_eq_ediv _ (by norm_num)]
    omega
  unfold int_to_move decode_action_to_squares pyFloorDiv pySquareIndex
  simp only []
  rw [if_neg (by omega), if_pos (by omega)]
  exact ⟨_, rfl, hf.2⟩

theorem int_to_move_err_outrange (e : Engine B) (b : B) (i : Int)
    (h : i < -4096 ∨ 4096 ≤ i) :
    int_to_move e b i = Except.error () := by
  have hf : Int.fdiv i 64 < -64 ∨ 64 ≤ Int.fdiv i 64 := by
    rw [Int.fdiv_eq_ediv _ (by norm_num)]
    rcases h with h | h
    · left
      omega
    · right
      omega
  unfold int_to_move decode_action_to_squares pyFloorDiv pySquareIndex
  simp only []
  rw [if_neg (by omega), if_neg (by omega)]

theorem stepCore_decode_error (e : Engine B) (s : EnvState B) (i : Int) (t : Rat)
    (hW : ¬ (e.turn s.board = Color.white ∧ (afterCharge e s t).white_time ≤ 0))
    (hB : ¬ (¬ e.turn s.board = Color.white ∧ (afterCharge e s t).black_time ≤ 0))
    (herr : int_to_move e s.board i = Except.error ()) :
    stepCore e s i t = Except.error () := by
  unfold stepCore
  simp only [afterCharge_board]
  rw [if_neg hW, if_neg hB, herr]

theorem stepCore_isOk_of_decode (e : Engine B) (s : EnvState B) (i : Int) (t : Rat)
    (hok : ∃ mv, int_to_move e (afterCharge e s t).board i = Except.ok mv) :
    (stepCore e s i t).isOk = true := by
  obtain ⟨mv, hmv⟩ := hok
  unfold stepCore
  simp only []
  split
  · rfl
  · split
    · rfl
    · rw [hmv]
      simp only []
      repeat' first
        | rfl
        | split

/-- C4: in an in-progress episode (neither clock expired after the
charge), an action decoding to a move outside the current legal-move set
— the engine's own membership test `move in board.legal_moves`, i.e.
`Board.is_legal`, rejecting the move — makes `step` return reward
`-10.0`, `terminated = true`, `truncated = false`, info carrying
`error = "illegal_move"`, and it leaves the board unchanged (no move is
applied). -/
theorem step_illegal_move_outcome (e : Engine B) (s : EnvState B) (a : PyAction) (mv : Move)
    (hW : ¬ (e.turn s.board = Color.white ∧
      (afterCharge e s (sanitizeElapsed a.elapsedRaw)).white_time ≤ 0))
    (hB : ¬ (¬ e.turn s.board = Color.white ∧
      (afterCharge e s (sanitizeElapsed a.elapsedRaw)).black_time ≤ 0))
    (hdec : int_to_move e s.board a.moveIdx = Except.ok mv)
    (hnl : e.isLegal s.board mv = false) :
    step e s a = Except.ok
      (⟨getObs e (afterCharge e s (sanitizeElapsed a.elapsedRaw)), -10, true, false,
        Info.error "illegal_move"⟩,
       afterCharge e s (sanitizeElapsed a.elapsedRaw)) ∧
    (afterCharge e s (sanitizeElapsed a.elapsedRaw)).board = s.board :=
  ⟨stepCore_illegal e s a.moveIdx (sanitizeElapsed a.elapsedRaw) mv hW hB hdec hnl,
   afterCharge_board e s _⟩

/-- C4 witness: on the concrete toy engine, action index 1 decodes to
the move (0,1), which is not in the legal set, and the step returns the
illegal-move outcome with the board unchanged. -/
theorem step_illegal_move_outcome_witness :
    (¬ (toyEngine.turn toyS0.board = Color.white ∧
      (afterCharge toyEngine toyS0 (sanitizeElapsed (PyAction.int 1).elapsedRaw)).white_time ≤ 0)) ∧
    (¬ (¬ toyEngine.turn toyS0.board = Color.white ∧
      (afterCharge toyEngine toyS0 (sanitizeElapsed (PyAction.int 1).elapsedRaw)).black_time ≤ 0)) ∧
    int_to_move toyEngine toyS0.board (PyAction.int 1).moveIdx = Except.ok ⟨0, 1, none⟩ ∧
    toyEngine.isLegal toyS0.board ⟨0, 1, none⟩ = false ∧
    (step toyEngine toyS0 (PyAction.int 1) = Except.ok
      (⟨getObs toyEngine (afterCharge toyEngine toyS0 (sanitizeElapsed (PyAction.int 1).elapsedRaw)),
        -10, true, false, Info.error "illegal_move"⟩,
       afterCharge toyEngine toyS0 (sanitizeElapsed (PyAction.int 1).elapsedRaw)) ∧
     (afterCharge toyEngine toyS0 (sanitizeElapsed (PyAction.int 1).elapsedRaw)).board = toyS0.board) :=
  ⟨by with_unfolding_all decide, by with_unfolding_all decide, by with_unfolding_all rfl,
   by with_unfolding_all decide,
   step_illegal_move_outcome toyEngine toyS0 (PyAction.int 1) ⟨0, 1, none⟩
     (by with_unfolding_all decide) (by with_unfolding_all decide)
     (by with_unfolding_all rfl) (by with_unfolding_all decide)⟩

/-- C5: when, after charging the acting colour's clock with the
sanitized elapsed time, that colour's remainder is ≤ 0, the step
terminates with info reason `"timeout"`, no move is applied (board
unchanged), and the reward is `-1.0` when White expired (and also when
Black expired in self-play), `+1.0` when Black expired in non-self-play. -/
theorem step_timeout_outcome (e : Engine B) (s : EnvState B) (a : PyAction)
    (hexp : (if e.turn s.board = Color.white
      then (afterCharge e s (sanitizeElapsed a.elapsedRaw)).white_time
      else (afterCharge e s (sanitizeElapsed a.elapsedRaw)).black_time) ≤ 0) :
    step e s a = Except.ok
      (⟨getObs e (afterCharge e s (sanitizeElapsed a.elapsedRaw)),
        if e.turn s.board = Color.white then -1 else if s.self_play then -1 else 1,
        true, false, Info.reason "timeout"⟩,
       afterCharge e s (sanitizeElapsed a.elapsedRaw)) ∧
    (afterCharge e s (sanitizeElapsed a.elapsedRaw)).board = s.board := by
  refine ⟨?_, afterCharge_board e s _⟩
  by_cases ht : e.turn s.board = Color.white
  · rw [if_pos ht] at hexp
    have h := stepCore_timeout_white e s a.moveIdx (sanitizeElapsed a.elapsedRaw) ⟨ht, hexp⟩
    rw [show step e s a
        = stepCore e s a.moveIdx (sanitizeElapsed a.elapsedRaw) from rfl, h]
    simp [ht]
  · rw [if_neg ht] at hexp
    have h := stepCore_timeout_black e s a.moveIdx (sanitizeElapsed a.elapsedRaw)
      (fun hc => ht hc.1) ⟨ht, hexp⟩
    rw [show step e s a
        = stepCore e s a.moveIdx (sanitizeElapsed a.elapsedRaw) from rfl, h]
    simp [ht]

/-- C5 witness: on the toy engine with White's clock already empty, a
zero-elapsed step times out with reward `-1.0` and reason `"timeout"`. -/
theorem step_timeout_outcome_witness :
    ((if toyEngine.turn toyTimeoutS.board = Color.white
      then (afterCharge toyEngine toyTimeoutS (sanitizeElapsed (PyAction.int 0).elapsedRaw)).white_time
      else (afterCharge toyEngine toyTimeoutS (sanitizeElapsed (PyAction.int 0).elapsedRaw)).black_time) ≤ 0) ∧
    (step toyEngine toyTimeoutS (PyAction.int 0) = Except.ok
      (⟨getObs toyEngine (afterCharge toyEngine toyTimeoutS (sanitizeElapsed (PyAction.int 0).elapsedRaw)),
        if toyEngine.turn toyTimeoutS.board = Color.white then -1
          else if toyTimeoutS.self_play then -1 else 1,
        true, false, Info.reason "timeout"⟩,
       afterCharge toyEngine toyTimeoutS (sanitizeElapsed (PyAction.int 0).elapsedRaw)) ∧
     (afterCharge toyEngine toyTimeoutS (sanitizeElapsed (PyAction.int 0).elapsedRaw)).board
        = toyTimeoutS.board) :=
  ⟨by with_unfolding_all decide,
   step_timeout_outcome toyEngine toyTimeoutS (PyAction.int 0) (by with_unfolding_all decide)⟩

/-- C7: an action pair whose elapsed component is not finite or is
negative behaves exactly like the same pair with elapsed `0.0`: the
whole step result is identical and no error is raised. -/
theorem step_nonfinite_elapsed_as_zero (e : Engine B) (s : EnvState B) (i : Int) (t : PyFloat)
    (h : t.isfinite = false ∨ t.isNeg = true) :
    step e s (PyAction.pair i t) = step e s (PyAction.pair i (PyFloat.finite 0)) := by
  have hz : sanitizeElapsed t = 0 := by
    cases t with
    | finite q =>
        rcases h with h | h
        · exact absurd h (by simp [PyFloat.isfinite])
        · have hq : q < 0 := of_decide_eq_true h
          simp [sanitizeElapsed, hq]
    | nan => rfl
    | inf => rfl
    | ninf => rfl
  show stepCore e s i (sanitizeElapsed t) = stepCore e s i (sanitizeElapsed (PyFloat.finite 0))
  rw [hz]
  norm_num [sanitizeElapsed]

/-- C7 witness: a NaN elapsed component gives the same step result as a
zero elapsed component on the toy engine. -/
theorem step_nonfinite_elapsed_as_zero_witness :
    (PyFloat.nan.isfinite = false ∨ PyFloat.nan.isNeg = true) ∧
    step toyEngine toyS0 (PyAction.pair 0 PyFloat.nan)
      = step toyEngine toyS0 (PyAction.pair 0 (PyFloat.finite 0)) :=
  ⟨Or.inl rfl, step_nonfinite_elapsed_as_zero toyEngine toyS0 0 PyFloat.nan (Or.inl rfl)⟩

/-- C3 counterexample: out-of-domain action indices are not rejected
with a hard `InvalidAction` error.  Index `-1` on a fresh episode is
silently decoded (Python negative list indexing) and folded into the
illegal-move penalty path with reward `-10.0`, and index `-4014` on the
wrapping engine — which models `Board.is_legal`'s index-wrapping
acceptance of `Move(-63, 18)` as Nb1-c3 on the initial board — is
silently decoded and played as a normal move with reward `0.0`. -/
theorem out_of_domain_index_not_rejected :
    ((step toyEngine toyS0 (PyAction.int (-1))).toOption.map
        (fun r => (r.1.reward, r.1.terminated, r.1.truncated, r.1.info, r.2.board))
      = some (-10, true, false, Info.error "illegal_move", 0)) ∧
    ((step wrapEngine wrapS0 (PyAction.int (-4014))).toOption.map
        (fun r => (r.1.reward, r.1.terminated, r.1.info, r.2.board))
      = some (0, false, Info.empty, 1)) := by
  constructor
  · with_unfolding_all rfl
  · with_unfolding_all rfl

/-- C3 amended: out-of-domain action indices are not guarded by an
`InvalidAction` check.  An index in `[-4096, -1]` is silently decoded
(via Python negative list indexing) into a move with a negative
from-square and processed through the ordinary step pipeline — the call
returns a normal step result, landing in the standard illegal-move
penalty exactly when the engine's membership test (`Board.is_legal`,
which wraps the negative square) rejects the move, and otherwise
playing it as an ordinary move; an index below `-4096` or at least
`4096` escapes as an uncaught `IndexError` from the board library
rather than an `InvalidAction` error. -/
theorem out_of_domain_index_behaviour (e : Engine B) (s : EnvState B) (i : Int)
    (hW : ¬ (e.turn s.board = Color.white ∧ s.white_time ≤ 0))
    (hB : ¬ (¬ e.turn s.board = Color.white ∧ s.black_time ≤ 0)) :
    (-4096 ≤ i ∧ i < 0 →
      ∃ mv, int_to_move e s.board i = Except.ok mv ∧ mv.fromSq < 0 ∧
        (step e s (PyAction.int i)).isOk = true ∧
        (e.isLegal s.board mv = false →
          step e s (PyAction.int i) = Except.ok
            (⟨getObs e s, -10, true, false, Info.error "illegal_move"⟩, s))) ∧
    ((i < -4096 ∨ 4096 ≤ i) → step e s (PyAction.int i) = Except.error ()) := by
  have hz : afterCharge e s (sanitizeElapsed (PyAction.int i).elapsedRaw) = s := by
    rw [show sanitizeElapsed (PyAction.int i).elapsedRaw = 0 from by
      norm_num [PyAction.elapsedRaw, sanitizeElapsed]]
    exact afterCharge_zero e s
  constructor
  · rintro ⟨h1, h2⟩
    obtain ⟨mv, hdec, hneg⟩ := int_to_move_ok_neg e s.board i h1 h2
    refine ⟨mv, hdec, hneg, ?_, ?_⟩
    · exact stepCore_isOk_of_decode e s i (sanitizeElapsed (PyAction.int i).elapsedRaw)
        ⟨mv, by rw [hz]; exact hdec⟩
    · intro hnl
      have hstep := stepCore_illegal e s i (sanitizeElapsed (PyAction.int i).elapsedRaw) mv
        (by rw [hz]; exact hW) (by rw [hz]; exact hB) hdec hnl
      rw [show step e s (PyAction.int i)
          = stepCore e s i (sanitizeElapsed (PyAction.int i).elapsedRaw) from rfl, hstep, hz]
  · intro h
    have herr := int_to_move_err_outrange e s.board i h
    have hstep := stepCore_decode_error e s i (sanitizeElapsed (PyAction.int i).elapsedRaw)
      (by rw [hz]; exact hW) (by rw [hz]; exact hB) herr
    rw [show step e s (PyAction.int i)
        = stepCore e s i (sanitizeElapsed (PyAction.int i).elapsedRaw) from rfl, hstep]

/-- C3 amended witness: the amended behaviour instantiated at index `-1`
on the toy engine. -/
theorem out_of_domain_index_behaviour_witness :
    (¬ (toyEngine.turn toyS0.board = Color.white ∧ toyS0.white_time ≤ 0)) ∧
    (¬ (¬ toyEngine.turn toyS0.board = Color.white ∧ toyS0.black_time ≤ 0)) ∧
    ((-4096 ≤ (-1 : Int) ∧ (-1 : Int) < 0 →
      ∃ mv, int_to_move toyEngine toyS0.board (-1) = Except.ok mv ∧ mv.fromSq < 0 ∧
        (step toyEngine toyS0 (PyAction.int (-1))).isOk = true ∧
        (toyEngine.isLegal toyS0.board mv = false →
          step toyEngine toyS0 (PyAction.int (-1)) = Except.ok
            (⟨getObs toyEngine toyS0, -10, true, false, Info.error "illegal_move"⟩, toyS0))) ∧
     (((-1 : Int) < -4096 ∨ 4096 ≤ (-1 : Int)) →
      step toyEngine toyS0 (PyAction.int (-1)) = Except.error ())) :=
  ⟨by with_unfolding_all decide, by with_unfolding_all decide,
   out_of_domain_index_behaviour toyEngine toyS0 (-1)
     (by with_unfolding_all decide) (by with_unfolding_all decide)⟩

/-- C1 counterexample: on an already-finished game, a step terminates
the episode, and a further step submitted before any reset is again
accepted and processed as a normal step (here landing in the
illegal-move policy path), rather than failing fast with a distinct
error. -/
theorem step_after_termination_counterexample :
    (step doneEngine doneS0 (PyAction.pair 0 (PyFloat.finite 1))).toOption.map
        (fun r => (r.1.terminated, r.2)) = some (true, doneS1) ∧
    (step doneEngine doneS1 (PyAction.int 0)).toOption.map
        (fun r => (r.1.reward, r.1.terminated, r.1.truncated, r.1.info))
      = some (-10, true, false, Info.error "illegal_move") := by
  constructor
  · with_unfolding_all rfl
  · with_unfolding_all rfl

/-- C1 amended: the environment does not track a `Terminated` machine
state.  A step submitted after a terminating step, with an in-domain
move index, is accepted and processed as an ordinary step (it returns a
normal outcome and raises no error), while reset always reinitializes
the machine to the fresh in-progress state: initial board and both
clocks refilled to the initial allotment. -/
theorem step_after_termination_processed (e : Engine B) (s s2 : EnvState B)
    (a a2 : PyAction) (out : StepOutcome)
    (hterm : step e s a = Except.ok (out, s2)) (ht : out.terminated = true)
    (hidx : 0 ≤ a2.moveIdx ∧ a2.moveIdx < 4096) :
    (step e s2 a2).isOk = true ∧
    ∀ seed opts, (reset e s2 seed opts).2.board = e.initial ∧
      (reset e s2 seed opts).2.white_time = s2.initial_time ∧
      (reset e s2 seed opts).2.black_time = s2.initial_time := by
  constructor
  · exact stepCore_isOk_of_decode e s2 a2.moveIdx _
      (int_to_move_ok_inrange e _ a2.moveIdx hidx.1 hidx.2)
  · intro seed opts
    exact ⟨rfl, rfl, rfl⟩

/-- C1 amended witness: on the finished-game engine, after a terminating
step, the next step is accepted (returns a normal outcome) and reset
restores the fresh state. -/
theorem step_after_termination_processed_witness :
    step doneEngine doneS0 (PyAction.pair 0 (PyFloat.finite 1)) = Except.ok (doneOut1, doneS1) ∧
    doneOut1.terminated = true ∧
    (0 ≤ (PyAction.int 0).moveIdx ∧ (PyAction.int 0).moveIdx < 4096) ∧
    ((step doneEngine doneS1 (PyAction.int 0)).isOk = true ∧
     ∀ seed opts, (reset doneEngine doneS1 seed opts).2.board = doneEngine.initial ∧
       (reset doneEngine doneS1 seed opts).2.white_time = doneS1.initial_time ∧
       (reset doneEngine doneS1 seed opts).2.black_time = doneS1.initial_time) :=
  ⟨by with_unfolding_all rfl, rfl, by decide,
   step_after_termination_processed doneEngine doneS0 doneS1
     (PyAction.pair 0 (PyFloat.finite 1)) (PyAction.int 0) doneOut1
     (by with_unfolding_all rfl) rfl (by decide)⟩

/-- C2: whenever a step applies a move and the rules engine then reports
game over, the returned outcome is terminated with reward equal to the
White-perspective base reward of the result, sign-flipped exactly when
self-play is on and the side to move on the resulting board is White
(Black made the terminating move); in non-self-play the base reward is
returned unflipped. -/
theorem step_game_over_reward (e : Engine B) (s : EnvState B) (a : PyAction) (mv : Move)
    (hW : ¬ (e.turn s.board = Color.white ∧
      (afterCharge e s (sanitizeElapsed a.elapsedRaw)).white_time ≤ 0))
    (hB : ¬ (¬ e.turn s.board = Color.white ∧
      (afterCharge e s (sanitizeElapsed a.elapsedRaw)).black_time ≤ 0))
    (hdec : int_to_move e s.board a.moveIdx = Except.ok mv)
    (hleg : e.isLegal s.board mv = true)
    (hgo : e.isGameOver (e.push s.board mv) = true) :
    ∃ out s2, step e s a = Except.ok (out, s2) ∧
      s2.board = e.push s.board mv ∧
      out.terminated = true ∧
      out.reward = specGameOverReward s.self_play (e.result (e.push s.board mv))
        (e.turn (e.push s.board mv)) := by
  have h := stepCore_game_over e s a.moveIdx (sanitizeElapsed a.elapsedRaw) mv hW hB hdec hleg hgo
  refine ⟨(handle_game_over e { afterCharge e s (sanitizeElapsed a.elapsedRaw) with
      board := e.push s.board mv }).1,
    (handle_game_over e { afterCharge e s (sanitizeElapsed a.elapsedRaw) with
      board := e.push s.board mv }).2, ?_, rfl, (handle_game_over_shape e _).1, ?_⟩
  · rw [show step e s a = stepCore e s a.moveIdx (sanitizeElapsed a.elapsedRaw) from rfl, h]
  · rw [handle_game_over_reward]
    simp [afterCharge_self_play]

/-- C2 witness: on the concrete mate engine in self-play, Black's single
move ends the game as a Black win; the board then shows White to move,
so the base reward is flipped. -/
theorem step_game_over_reward_witness :
    (¬ (mateEngine.turn mateS0.board = Color.white ∧
      (afterCharge mateEngine mateS0 (sanitizeElapsed (PyAction.int 0).elapsedRaw)).white_time ≤ 0)) ∧
    (¬ (¬ mateEngine.turn mateS0.board = Color.white ∧
      (afterCharge mateEngine mateS0 (sanitizeElapsed (PyAction.int 0).elapsedRaw)).black_time ≤ 0)) ∧
    int_to_move mateEngine mateS0.board (PyAction.int 0).moveIdx = Except.ok ⟨0, 0, none⟩ ∧
    mateEngine.isLegal mateS0.board ⟨0, 0, none⟩ = true ∧
    mateEngine.isGameOver (mateEngine.push mateS0.board ⟨0, 0, none⟩) = true ∧
    ∃ out s2, step mateEngine mateS0 (PyAction.int 0) = Except.ok (out, s2) ∧
      s2.board = mateEngine.push mateS0.board ⟨0, 0, none⟩ ∧
      out.terminated = true ∧
      out.reward = specGameOverReward mateS0.self_play
        (mateEngine.result (mateEngine.push mateS0.board ⟨0, 0, none⟩))
        (mateEngine.turn (mateEngine.push mateS0.board ⟨0, 0, none⟩)) :=
  ⟨by with_unfolding_all decide, by with_unfolding_all decide, by with_unfolding_all rfl,
   by with_unfolding_all decide, by with_unfolding_all decide,
   step_game_over_reward mateEngine mateS0 (PyAction.int 0) ⟨0, 0, none⟩
     (by with_unfolding_all decide) (by with_unfolding_all decide)
     (by with_unfolding_all rfl) (by with_unfolding_all decide)
     (by with_unfolding_all decide)⟩

/-- C6: in non-self-play mode, after White's legal move is applied
without ending the game and with Black replies available, the step picks
the Black reply from the legal-move set at the index drawn from the
episode generator, applies it, charges only Black's clock with a think
time in [0.1, 0.5] (White's clock keeps only its own elapsed charge),
and when Black's remainder is then ≤ 0 the outcome is reward `+1.0` with
info reason `"opponent_timeout"`. -/
theorem step_opponent_phase (e : Engine B) (s : EnvState B) (a : PyAction) (mv : Move)
    (hW : ¬ (e.turn s.board = Color.white ∧
      (afterCharge e s (sanitizeElapsed a.elapsedRaw)).white_time ≤ 0))
    (hB : ¬ (¬ e.turn s.board = Color.white ∧
      (afterCharge e s (sanitizeElapsed a.elapsedRaw)).black_time ≤ 0))
    (hdec : int_to_move e s.board a.moveIdx = Except.ok mv)
    (hleg : e.isLegal s.board mv = true)
    (hngo : e.isGameOver (e.push s.board mv) = false)
    (hsp : s.self_play = false)
    (hts : e.turn s.board = Color.white)
    (hlm : (e.legalMoves (e.push s.board mv)).isEmpty = false) :
    ∃ r : StepOutcome × EnvState B, step e s a = Except.ok r ∧
      r.2 = oppState e s (sanitizeElapsed a.elapsedRaw) mv ∧
      ((oppState e s (sanitizeElapsed a.elapsedRaw) mv).black_time ≤ 0 →
        r.1 = ⟨getObs e (oppState e s (sanitizeElapsed a.elapsedRaw) mv), 1, true, false,
          Info.reason "opponent_timeout"⟩) ∧
      rngChoiceIdx s.rng (e.legalMoves (e.push s.board mv)).length
        < (e.legalMoves (e.push s.board mv)).length ∧
      (e.legalMoves (e.push s.board mv)).getD
          (rngChoiceIdx s.rng (e.legalMoves (e.push s.board mv)).length) ⟨0, 0, none⟩
        ∈ e.legalMoves (e.push s.board mv) ∧
      (oppState e s (sanitizeElapsed a.elapsedRaw) mv).board
        = e.push (e.push s.board mv)
            ((e.legalMoves (e.push s.board mv)).getD
              (rngChoiceIdx s.rng (e.legalMoves (e.push s.board mv)).length) ⟨0, 0, none⟩) ∧
      (oppState e s (sanitizeElapsed a.elapsedRaw) mv).white_time
        = s.white_time - sanitizeElapsed a.elapsedRaw ∧
      (oppState e s (sanitizeElapsed a.elapsedRaw) mv).black_time
        = s.black_time - rngUniform (rngNext s.rng) (1 / 10) (1 / 2) ∧
      (oppState e s (sanitizeElapsed a.elapsedRaw) mv).rng = rngNext (rngNext s.rng) ∧
      1 / 10 ≤ rngUniform (rngNext s.rng) (1 / 10) (1 / 2) ∧
      rngUniform (rngNext s.rng) (1 / 10) (1 / 2) ≤ 1 / 2 := by
  set t := sanitizeElapsed a.elapsedRaw with hT
  have hlen : 0 < (e.legalMoves (e.push s.board mv)).length := by
    cases hcase : e.legalMoves (e.push s.board mv) with
    | nil => rw [hcase] at hlm; exact absurd hlm (by simp)
    | cons x xs => simp
  have hk : rngChoiceIdx s.rng (e.legalMoves (e.push s.board mv)).length
      < (e.legalMoves (e.push s.board mv)).length := Nat.mod_lt _ hlen
  have hmem : (e.legalMoves (e.push s.board mv)).getD
      (rngChoiceIdx s.rng (e.legalMoves (e.push s.board mv)).length) ⟨0, 0, none⟩
      ∈ e.legalMoves (e.push s.board mv) := by
    rw [List.getD_eq_getElem _ _ hk]
    exact List.getElem_mem _
  have hwb := afterCharge_white_of_turn e s t hts
  have hwhite : (oppState e s t mv).white_time = s.white_time - t := hwb.1
  have hblack : (oppState e s t mv).black_time
      = s.black_time - rngUniform (rngNext s.rng) (1 / 10) (1 / 2) := by
    show (afterCharge e s t).black_time - rngUniform (rngNext s.rng) (1 / 10) (1 / 2) = _
    rw [hwb.2]
  by_cases hbt : (oppState e s t mv).black_time ≤ 0
  · have h := stepCore_opp_timeout e s a.moveIdx t mv hW hB hdec hleg hngo hsp hts hlm hbt
    exact ⟨_, h, rfl, fun _ => rfl, hk, hmem, rfl, hwhite, hblack, rfl,
      (oppCost_bounds _).1, (oppCost_bounds _).2⟩
  · by_cases hgo2 : e.isGameOver (oppState e s t mv).board = true
    · have h := stepCore_opp_game_over e s a.moveIdx t mv hW hB hdec hleg hngo hsp hts hlm hbt hgo2
      exact ⟨_, h, (handle_game_over_shape e _).2.2.2, fun hc => absurd hc hbt, hk, hmem, rfl,
        hwhite, hblack, rfl, (oppCost_bounds _).1, (oppCost_bounds _).2⟩
    · have hgo2f : e.isGameOver (oppState e s t mv).board = false := by
        cases hcase : e.isGameOver (oppState e s t mv).board
        · rfl
        · exact absurd hcase hgo2
      have h := stepCore_opp_continue e s a.moveIdx t mv hW hB hdec hleg hngo hsp hts hlm hbt hgo2f
      exact ⟨_, h, rfl, fun hc => absurd hc hbt, hk, hmem, rfl,
        hwhite, hblack, rfl, (oppCost_bounds _).1, (oppCost_bounds _).2⟩

/-- C6 witness: the opponent phase instantiated on the toy engine from
the fresh state with action 0. -/
theorem step_opponent_phase_witness :
    (¬ (toyEngine.turn toyS0.board = Color.white ∧
      (afterCharge toyEngine toyS0 (sanitizeElapsed (PyAction.int 0).elapsedRaw)).white_time ≤ 0)) ∧
    (¬ (¬ toyEngine.turn toyS0.board = Color.white ∧
      (afterCharge toyEngine toyS0 (sanitizeElapsed (PyAction.int 0).elapsedRaw)).black_time ≤ 0)) ∧
    int_to_move toyEngine toyS0.board (PyAction.int 0).moveIdx = Except.ok ⟨0, 0, none⟩ ∧
    toyEngine.isLegal toyS0.board ⟨0, 0, none⟩ = true ∧
    toyEngine.isGameOver (toyEngine.push toyS0.board ⟨0, 0, none⟩) = false ∧
    toyS0.self_play = false ∧
    toyEngine.turn toyS0.board = Color.white ∧
    (toyEngine.legalMoves (toyEngine.push toyS0.board ⟨0, 0, none⟩)).isEmpty = false ∧
    ∃ r : StepOutcome × EnvState Nat,
      step toyEngine toyS0 (PyAction.int 0) = Except.ok r ∧
      r.2 = oppState toyEngine toyS0 (sanitizeElapsed (PyAction.int 0).elapsedRaw) ⟨0, 0, none⟩ ∧
      ((oppState toyEngine toyS0 (sanitizeElapsed (PyAction.int 0).elapsedRaw) ⟨0, 0, none⟩).black_time ≤ 0 →
        r.1 = ⟨getObs toyEngine
          (oppState toyEngine toyS0 (sanitizeElapsed (PyAction.int 0).elapsedRaw) ⟨0, 0, none⟩),
          1, true, false, Info.reason "opponent_timeout"⟩) ∧
      rngChoiceIdx toyS0.rng
          (toyEngine.legalMoves (toyEngine.push toyS0.board ⟨0, 0, none⟩)).length
        < (toyEngine.legalMoves (toyEngine.push toyS0.board ⟨0, 0, none⟩)).length ∧
      (toyEngine.legalMoves (toyEngine.push toyS0.board ⟨0, 0, none⟩)).getD
          (rngChoiceIdx toyS0.rng
            (toyEngine.legalMoves (toyEngine.push toyS0.board ⟨0, 0, none⟩)).length) ⟨0, 0, none⟩
        ∈ toyEngine.legalMoves (toyEngine.push toyS0.board ⟨0, 0, none⟩) ∧
      (oppState toyEngine toyS0 (sanitizeElapsed (PyAction.int 0).elapsedRaw) ⟨0, 0, none⟩).board
        = toyEngine.push (toyEngine.push toyS0.board ⟨0, 0, none⟩)
            ((toyEngine.legalMoves (toyEngine.push toyS0.board ⟨0, 0, none⟩)).getD
              (rngChoiceIdx toyS0.rng
                (toyEngine.legalMoves (toyEngine.push toyS0.board ⟨0, 0, none⟩)).length)
              ⟨0, 0, none⟩) ∧
      (oppState toyEngine toyS0 (sanitizeElapsed (PyAction.int 0).elapsedRaw) ⟨0, 0, none⟩).white_time
        = toyS0.white_time - sanitizeElapsed (PyAction.int 0).elapsedRaw ∧
      (oppState toyEngine toyS0 (sanitizeElapsed (PyAction.int 0).elapsedRaw) ⟨0, 0, none⟩).black_time
        = toyS0.black_time - rngUniform (rngNext toyS0.rng) (1 / 10) (1 / 2) ∧
      (oppState toyEngine toyS0 (sanitizeElapsed (PyAction.int 0).elapsedRaw) ⟨0, 0, none⟩).rng
        = rngNext (rngNext toyS0.rng) ∧
      1 / 10 ≤ rngUniform (rngNext toyS0.rng) (1 / 10) (1 / 2) ∧
      rngUniform (rngNext toyS0.rng) (1 / 10) (1 / 2) ≤ 1 / 2 :=
  ⟨by with_unfolding_all decide, by with_unfolding_all decide, by with_unfolding_all rfl,
   by with_unfolding_all decide, by with_unfolding_all rfl, rfl, by with_unfolding_all decide,
   by with_unfolding_all rfl,
   step_opponent_phase toyEngine toyS0 (PyAction.int 0) ⟨0, 0, none⟩
     (by with_unfolding_all decide) (by with_unfolding_all decide)
     (by with_unfolding_all rfl) (by with_unfolding_all decide)
     (by with_unfolding_all rfl) rfl (by with_unfolding_all decide)
     (by with_unfolding_all rfl)⟩

theorem toyEngine_turn_alternates : TurnAlternates toyEngine := by
  intro b m
  show (if (b + 1) % 2 = 0 then Color.white else Color.black)
      = (if b % 2 = 0 then Color.white else Color.black).other
  by_cases h : b % 2 = 0
  · rw [if_pos h, if_neg (by omega)]
    rfl
  · rw [if_neg h, if_pos (by omega)]
    rfl

/-- C10: in non-self-play mode (given the chess law that pushing a move
hands the turn to the other colour), whenever `step` returns with
`terminated = false` the side to move on the resulting board is White;
moreover the random Black reply is simulated exactly when it was White's
turn at entry (the generator advances by the two opponent draws), and
never when it was Black's turn (the generator is untouched). -/
theorem step_nonselfplay_white_to_move (e : Engine B)
    (halt : TurnAlternates e) (s : EnvState B) (a : PyAction)
    (out : StepOutcome) (s2 : EnvState B)
    (hsp : s.self_play = false)
    (hok : step e s a = Except.ok (out, s2))
    (hnt : out.terminated = false) :
    e.turn s2.board = Color.white ∧
    (e.turn s.board = Color.white → s2.rng = rngNext (rngNext s.rng)) ∧
    (¬ e.turn s.board = Color.white → s2.rng = s.rng) := by
  set t := sanitizeElapsed a.elapsedRaw with hT
  rw [show step e s a = stepCore e s a.moveIdx t from rfl] at hok
  by_cases c1 : e.turn s.board = Color.white ∧ (afterCharge e s t).white_time ≤ 0
  · rw [stepCore_timeout_white e s a.moveIdx t c1] at hok
    simp only [Except.ok.injEq, Prod.mk.injEq] at hok
    rw [← hok.1] at hnt
    exact absurd hnt (by simp)
  · by_cases c2 : ¬ e.turn s.board = Color.white ∧ (afterCharge e s t).black_time ≤ 0
    · rw [stepCore_timeout_black e s a.moveIdx t c1 c2] at hok
      simp only [Except.ok.injEq, Prod.mk.injEq] at hok
      rw [← hok.1] at hnt
      exact absurd hnt (by simp)
    · cases hdec : int_to_move e s.board a.moveIdx with
      | error u =>
          cases u
          rw [stepCore_decode_error e s a.moveIdx t c1 c2 hdec] at hok
          exact Except.noConfusion hok
      | ok mv =>
          by_cases hmem : e.isLegal s.board mv = true
          · cases hgo : e.isGameOver (e.push s.board mv) with
            | true =>
                rw [stepCore_game_over e s a.moveIdx t mv c1 c2 hdec hmem hgo] at hok
                simp only [Except.ok.injEq] at hok
                have hterm := (handle_game_over_shape e
                  { afterCharge e s t with board := e.push s.board mv }).1
                rw [congrArg Prod.fst hok] at hterm
                rw [hterm] at hnt
                exact Bool.noConfusion hnt
            | false =>
                cases hcol : e.turn s.board with
                | white =>
                    cases hlm : (e.legalMoves (e.push s.board mv)).isEmpty with
                    | true =>
                        rw [stepCore_opp_nomoves e s a.moveIdx t mv c1 c2 hdec hmem hgo hsp
                          hcol hlm] at hok
                        simp only [Except.ok.injEq] at hok
                        have hterm := (handle_game_over_shape e
                          { afterCharge e s t with board := e.push s.board mv }).1
                        rw [congrArg Prod.fst hok] at hterm
                        rw [hterm] at hnt
                        exact Bool.noConfusion hnt
                    | false =>
                        by_cases hbt : (oppState e s t mv).black_time ≤ 0
                        · rw [stepCore_opp_timeout e s a.moveIdx t mv c1 c2 hdec hmem hgo hsp
                            hcol hlm hbt] at hok
                          simp only [Except.ok.injEq, Prod.mk.injEq] at hok
                          rw [← hok.1] at hnt
                          exact absurd hnt (by simp)
                        · cases hgo2 : e.isGameOver (oppState e s t mv).board with
                          | true =>
                              rw [stepCore_opp_game_over e s a.moveIdx t mv c1 c2 hdec hmem hgo
                                hsp hcol hlm hbt hgo2] at hok
                              simp only [Except.ok.injEq] at hok
                              have hterm := (handle_game_over_shape e (oppState e s t mv)).1
                              rw [congrArg Prod.fst hok] at hterm
                              rw [hterm] at hnt
                              exact Bool.noConfusion hnt
                          | false =>
                              rw [stepCore_opp_continue e s a.moveIdx t mv c1 c2 hdec hmem hgo
                                hsp hcol hlm hbt hgo2] at hok
                              simp only [Except.ok.injEq, Prod.mk.injEq] at hok
                              rw [← hok.2]
                              refine ⟨?_, fun _ => rfl, fun hc => absurd rfl hc⟩
                              rw [show (oppState e s t mv).board
                                  = e.push (e.push s.board mv)
                                    ((e.legalMoves (e.push s.board mv)).getD
                                      (rngChoiceIdx s.rng (e.legalMoves (e.push s.board mv)).length)
                                      ⟨0, 0, none⟩) from rfl,
                                halt, halt, hcol]
                              rfl
                | black =>
                    have hcw : ¬ e.turn s.board = Color.white := by
                      rw [hcol]
                      exact fun hh => Color.noConfusion hh
                    rw [stepCore_black_continue e s a.moveIdx t mv c1 c2 hdec hmem hgo hsp hcw] at hok
                    simp only [Except.ok.injEq, Prod.mk.injEq] at hok
                    rw [← hok.2]
                    refine ⟨?_, fun hc => Color.noConfusion hc, fun _ => afterCharge_rng e s t⟩
                    show e.turn (e.push s.board mv) = Color.white
                    rw [halt, hcol]
                    rfl
          · simp only [Bool.not_eq_true] at hmem
            rw [stepCore_illegal e s a.moveIdx t mv c1 c2 hdec hmem] at hok
            simp only [Except.ok.injEq, Prod.mk.injEq] at hok
            rw [← hok.1] at hnt
            exact absurd hnt (by simp)

/-- C10 witness: on the toy engine (whose push alternates the turn),
Black to move in non-self-play: after Black's own move the step returns
non-terminated with White to move and the generator untouched. -/
theorem step_nonselfplay_white_to_move_witness :
    TurnAlternates toyEngine ∧
    toySBlack.self_play = false ∧
    step toyEngine toySBlack (PyAction.int 0) = Except.ok (toyOutBlack, toySBlackNext) ∧
    toyOutBlack.terminated = false ∧
    (toyEngine.turn toySBlackNext.board = Color.white ∧
     (toyEngine.turn toySBlack.board = Color.white →
        toySBlackNext.rng = rngNext (rngNext toySBlack.rng)) ∧
     (¬ toyEngine.turn toySBlack.board = Color.white → toySBlackNext.rng = toySBlack.rng)) :=
  ⟨toyEngine_turn_alternates, rfl, by with_unfolding_all rfl, rfl,
   step_nonselfplay_white_to_move toyEngine toyEngine_turn_alternates toySBlack
     (PyAction.int 0) toyOutBlack toySBlackNext rfl (by with_unfolding_all rfl) rfl⟩

theorem step_ok_state_cases (e : Engine B) (s : EnvState B) (a : PyAction)
    (out : StepOutcome) (s2 : EnvState B)
    (hok : step e s a = Except.ok (out, s2)) :
    s2 = afterCharge e s (sanitizeElapsed a.elapsedRaw) ∨
    (∃ mv, s2 = { afterCharge e s (sanitizeElapsed a.elapsedRaw) with
      board := e.push s.board mv }) ∨
    (∃ mv, s2 = oppState e s (sanitizeElapsed a.elapsedRaw) mv) := by
  set t := sanitizeElapsed a.elapsedRaw with hT
  rw [show step e s a = stepCore e s a.moveIdx t from rfl] at hok
  by_cases c1 : e.turn s.board = Color.white ∧ (afterCharge e s t).white_time ≤ 0
  · rw [stepCore_timeout_white e s a.moveIdx t c1] at hok
    simp only [Except.ok.injEq, Prod.mk.injEq] at hok
    exact Or.inl hok.2.symm
  · by_cases c2 : ¬ e.turn s.board = Color.white ∧ (afterCharge e s t).black_time ≤ 0
    · rw [stepCore_timeout_black e s a.moveIdx t c1 c2] at hok
      simp only [Except.ok.injEq, Prod.mk.injEq] at hok
      exact Or.inl hok.2.symm
    · cases hdec : int_to_move e s.board a.moveIdx with
      | error u =>
          cases u
          rw [stepCore_decode_error e s a.moveIdx t c1 c2 hdec] at hok
          exact Except.noConfusion hok
      | ok mv =>
          by_cases hmem : e.isLegal s.board mv = true
          · cases hgo : e.isGameOver (e.push s.board mv) with
            | true =>
                rw [stepCore_game_over e s a.moveIdx t mv c1 c2 hdec hmem hgo] at hok
                simp only [Except.ok.injEq] at hok
                have h2 := congrArg Prod.snd hok
                rw [(handle_game_over_shape e _).2.2.2] at h2
                exact Or.inr (Or.inl ⟨mv, h2.symm⟩)
            | false =>
                cases hsp : s.self_play with
                | true =>
                    rw [stepCore_selfplay_continue e s a.moveIdx t mv c1 c2 hdec hmem hgo hsp] at hok
                    simp only [Except.ok.injEq, Prod.mk.injEq] at hok
                    exact Or.inr (Or.inl ⟨mv, hok.2.symm⟩)
                | false =>
                    cases hcol : e.turn s.board with
                    | white =>
                        cases hlm : (e.legalMoves (e.push s.board mv)).isEmpty with
                        | true =>
                            rw [stepCore_opp_nomoves e s a.moveIdx t mv c1 c2 hdec hmem hgo hsp
                              hcol hlm] at hok
                            simp only [Except.ok.injEq] at hok
                            have h2 := congrArg Prod.snd hok
                            rw [(handle_game_over_shape e _).2.2.2] at h2
                            exact Or.inr (Or.inl ⟨mv, h2.symm⟩)
                        | false =>
                            by_cases hbt : (oppState e s t mv).black_time ≤ 0
                            · rw [stepCore_opp_timeout e s a.moveIdx t mv c1 c2 hdec hmem hgo hsp
                                hcol hlm hbt] at hok
                              simp only [Except.ok.injEq, Prod.mk.injEq] at hok
                              exact Or.inr (Or.inr ⟨mv, hok.2.symm⟩)
                            · cases hgo2 : e.isGameOver (oppState e s t mv).board with
                              | true =>
                                  rw [stepCore_opp_game_over e s a.moveIdx t mv c1 c2 hdec hmem
                                    hgo hsp hcol hlm hbt hgo2] at hok
                                  simp only [Except.ok.injEq] at hok
                                  have h2 := congrArg Prod.snd hok
                                  rw [(handle_game_over_shape e _).2.2.2] at h2
                                  exact Or.inr (Or.inr ⟨mv, h2.symm⟩)
                              | false =>
                                  rw [stepCore_opp_continue e s a.moveIdx t mv c1 c2 hdec hmem
                                    hgo hsp hcol hlm hbt hgo2] at hok
                                  simp only [Except.ok.injEq, Prod.mk.injEq] at hok
                                  exact Or.inr (Or.inr ⟨mv, hok.2.symm⟩)
                    | black =>
                        have hcw : ¬ e.turn s.board = Color.white := by
                          rw [hcol]
                          exact fun hh => Color.noConfusion hh
                        rw [stepCore_black_continue e s a.moveIdx t mv c1 c2 hdec hmem hgo hsp
                          hcw] at hok
                        simp only [Except.ok.injEq, Prod.mk.injEq] at hok
                        exact Or.inr (Or.inl ⟨mv, hok.2.symm⟩)
          · simp only [Bool.not_eq_true] at hmem
            rw [stepCore_illegal e s a.moveIdx t mv c1 c2 hdec hmem] at hok
            simp only [Except.ok.injEq, Prod.mk.injEq] at hok
            exact Or.inl hok.2.symm

theorem step_state_bounds (e : Engine B) (s : EnvState B) (a : PyAction)
    (out : StepOutcome) (s2 : EnvState B)
    (hok : step e s a = Except.ok (out, s2)) :
    s2.white_time ≤ s.white_time ∧ s2.black_time ≤ s.black_time ∧
    s2.initial_time = s.initial_time := by
  have hle := afterCharge_le e s (sanitizeElapsed a.elapsedRaw) (sanitizeElapsed_nonneg _)
  rcases step_ok_state_cases e s a out s2 hok with h | ⟨mv, h⟩ | ⟨mv, h⟩ <;> subst h
  · exact ⟨hle.1, hle.2, afterCharge_initial_time e s _⟩
  · exact ⟨hle.1, hle.2, afterCharge_initial_time e s _⟩
  · refine ⟨hle.1, ?_, afterCharge_initial_time e s _⟩
    have hc : (0 : Rat) ≤ rngUniform (rngNext s.rng) (1 / 10) (1 / 2) :=
      le_trans (by norm_num) (oppCost_bounds (rngNext s.rng)).1
    exact le_trans (sub_le_self _ hc) hle.2

theorem reachable_invariant (e : Engine B) (s : EnvState B) (h : Reachable e s) :
    s.initial_time = 60 ∧ s.white_time ≤ 60 ∧ s.black_time ≤ 60 := by
  induction h with
  | init sp g => exact ⟨rfl, le_refl _, le_refl _⟩
  | ofReset s0 seed opts hr ih =>
      exact ⟨ih.1, le_of_eq ih.1, le_of_eq ih.1⟩
  | ofStep s0 a out s2 hr hstep ih =>
      have hb := step_state_bounds e s0 a out s2 hstep
      exact ⟨hb.2.2.trans ih.1, hb.1.trans ih.2.1, hb.2.1.trans ih.2.2⟩

/-- C8: at every reachable episode state, the emitted 8-entry state
vector matches the §4.2 layout index for index (side to move, the four
castling rights in White-kingside, White-queenside, Black-kingside,
Black-queenside order, en-passant availability, then the two clocks),
with entries 6 and 7 equal to `max(0, remaining) / initial_allotment`,
and all eight values lie in [0.0, 1.0]. -/
theorem state_vector_layout_and_bounds (e : Engine B) (s : EnvState B) (h : Reachable e s) :
    get_state_vector e s.board s.white_time s.black_time s.initial_time
      = specStateVector e s.board s.white_time s.black_time s.initial_time ∧
    (get_state_vector e s.board s.white_time s.black_time s.initial_time).length = 8 ∧
    ∀ x ∈ get_state_vector e s.board s.white_time s.black_time s.initial_time,
      0 ≤ x ∧ x ≤ 1 := by
  obtain ⟨hit, hw, hb⟩ := reachable_invariant e s h
  have h60 : (0 : Rat) < 60 := by norm_num
  have hmaxw : max 0 (s.white_time / 60) = max 0 s.white_time / 60 := by
    have hq := max_div_div_right (le_of_lt h60) (0 : Rat) s.white_time
    rwa [zero_div] at hq
  have hmaxb : max 0 (s.black_time / 60) = max 0 s.black_time / 60 := by
    have hq := max_div_div_right (le_of_lt h60) (0 : Rat) s.black_time
    rwa [zero_div] at hq
  refine ⟨?_, rfl, ?_⟩
  · unfold get_state_vector specStateVector
    rw [hit, hmaxw, hmaxb]
  · intro x hx
    rw [hit] at hx
    simp only [get_state_vector, List.mem_cons, List.not_mem_nil, or_false] at hx
    rcases hx with hh | hh | hh | hh | hh | hh | hh | hh <;> subst hh
    · exact ⟨by split <;> norm_num, by split <;> norm_num⟩
    · exact ⟨by split <;> norm_num, by split <;> norm_num⟩
    · exact ⟨by split <;> norm_num, by split <;> norm_num⟩
    · exact ⟨by split <;> norm_num, by split <;> norm_num⟩
    · exact ⟨by split <;> norm_num, by split <;> norm_num⟩
    · exact ⟨by split <;> norm_num, by split <;> norm_num⟩
    · exact ⟨le_max_left _ _, max_le (by norm_num) ((div_le_one h60).mpr hw)⟩
    · exact ⟨le_max_left _ _, max_le (by norm_num) ((div_le_one h60).mpr hb)⟩

/-- C8 witness: the freshly initialized toy environment state is
reachable, and its state vector satisfies the layout and bounds. -/
theorem state_vector_layout_and_bounds_witness :
    Reachable toyEngine (initEnv toyEngine false 0) ∧
    (get_state_vector toyEngine (initEnv toyEngine false 0).board
        (initEnv toyEngine false 0).white_time (initEnv toyEngine false 0).black_time
        (initEnv toyEngine false 0).initial_time
      = specStateVector toyEngine (initEnv toyEngine false 0).board
        (initEnv toyEngine false 0).white_time (initEnv toyEngine false 0).black_time
        (initEnv toyEngine false 0).initial_time ∧
     (get_state_vector toyEngine (initEnv toyEngine false 0).board
        (initEnv toyEngine false 0).white_time (initEnv toyEngine false 0).black_time
        (initEnv toyEngine false 0).initial_time).length = 8 ∧
     ∀ x ∈ get_state_vector toyEngine (initEnv toyEngine false 0).board
        (initEnv toyEngine false 0).white_time (initEnv toyEngine false 0).black_time
        (initEnv toyEngine false 0).initial_time,
       0 ≤ x ∧ x ≤ 1) :=
  ⟨Reachable.init false 0,
   state_vector_layout_and_bounds toyEngine (initEnv toyEngine false 0)
     (Reachable.init false 0)⟩

/-- C9: two runs on environments with the same configuration that both
call reset with the same seed and then submit the same action sequence
replay identically: the post-reset observations agree and the full
traces of step outcomes (observations, rewards, termination flags,
clocks) agree. -/
theorem seeded_reset_replay (e : Engine B) (s1 s2 : EnvState B) (sd : Nat)
    (acts : List PyAction)
    (hsp : s1.self_play = s2.self_play) (hit : s1.initial_time = s2.initial_time) :
    (reset e s1 (some sd) none).1 = (reset e s2 (some sd) none).1 ∧
    runEpisode e (reset e s1 (some sd) none).2 acts
      = runEpisode e (reset e s2 (some sd) none).2 acts := by
  have hst : (reset e s1 (some sd) none).2 = (reset e s2 (some sd) none).2 := by
    show (⟨e.initial, s1.initial_time, s1.initial_time, s1.initial_time,
      (none : Option Bool).getD s1.self_play, seedRng sd⟩ : EnvState B)
        = (⟨e.initial, s2.initial_time, s2.initial_time, s2.initial_time,
      (none : Option Bool).getD s2.self_play, seedRng sd⟩ : EnvState B)
    rw [hit, hsp]
  constructor
  · rw [show (reset e s1 (some sd) none).1 = getObs e (reset e s1 (some sd) none).2 from rfl,
      show (reset e s2 (some sd) none).1 = getObs e (reset e s2 (some sd) none).2 from rfl, hst]
  · rw [hst]

/-- C9 witness: two toy environments in different prior states (fresh,
and mid-game with Black to move) but the same configuration, reset with
seed 42, replay the action sequence `[0]` identically. -/
theorem seeded_reset_replay_witness :
    toyS0.self_play = toySBlack.self_play ∧
    toyS0.initial_time = toySBlack.initial_time ∧
    ((reset toyEngine toyS0 (some 42) none).1
        = (reset toyEngine toySBlack (some 42) none).1 ∧
     runEpisode toyEngine (reset toyEngine toyS0 (some 42) none).2 [PyAction.int 0]
        = runEpisode toyEngine (reset toyEngine toySBlack (some 42) none).2 [PyAction.int 0]) :=
  ⟨rfl, rfl,
   seeded_reset_replay toyEngine toyS0 toySBlack 42 [PyAction.int 0] rfl rfl⟩

end BulletChess
